import Mathlib

/-!
Verification of the trycatcher asynchronous control-flow combinators
(`src/index.ts`): retry with backoff, rate limiting, cancellation,
batching and timeouts.  The combinators are embedded shallowly: a task's
settlement is an `Except JsError` value, the per-attempt / per-call
behaviour of a user function is a pure function, and the temporal side
effects (waits, callback invocations, producer admissions) are recorded
as explicit event logs or small-step state transitions.
-/

namespace Trycatcher

/-- A JavaScript error value as the library sees it: either a plain
`Error` (only a message) or an `AppError` carrying the extra `code`,
`statusCode` and `isOperational` fields set by the `AppError`
constructor. -/
inductive JsError where
  | plain (message : String)
  | app (message : String) (code : String) (statusCode : Nat) (isOperational : Bool)
deriving DecidableEq, Repr

/-- JavaScript `x || d` for an optional number field: `undefined` and `0`
are both falsy, so both fall back to the default `d`.  This models the
option normalisations `options.attempts || 3`, `options.delay || 1000`,
`options.size || 10`, `options.delay || 0`. -/
def jsOrNat (x : Option Nat) (d : Nat) : Nat :=
  match x with
  | none => d
  | some n => if n = 0 then d else n

/-- JavaScript `x !== false` for an optional boolean field: models
`options.backoff !== false` (default `true`). -/
def jsNeFalse (x : Option Bool) : Bool :=
  x != some false

/-- `new AppError(message, { code, statusCode, isOperational })` with the
constructor defaults `code || 'INTERNAL_ERROR'`, `statusCode || 500`,
`isOperational !== false`. -/
def mkAppError (message : String) (code : Option String) (statusCode : Option Nat)
    (isOperational : Option Bool) : JsError :=
  .app message (code.getD "INTERNAL_ERROR") (jsOrNat statusCode 500) (jsNeFalse isOperational)

/-- Whether an outcome is a failure whose classification code is
`CANCELLED`. -/
def isCancelledFailure : Except JsError α → Bool
  | .error (.app _ code _ _) => code == "CANCELLED"
  | _ => false

/-- Settlement logic of `withCancel(promise)`.  The wrapper attaches
`promise.then(value => isCancelled ? reject(new AppError('Operation
cancelled', { code: 'CANCELLED' })) : resolve(value), error =>
reject(error))`.  `isCancelled` is the value of the cancellation flag at
the moment the underlying settlement is observed by these handlers;
`outcome` is the underlying task's settlement. -/
def withCancelSettle (isCancelled : Bool) (outcome : Except JsError α) : Except JsError α :=
  match outcome with
  | .ok value =>
      if isCancelled then
        .error (mkAppError "Operation cancelled" (some "CANCELLED") none none)
      else
        .ok value
  | .error e => .error e

/-- Result of `withTimeout(promise, ms, message)`.  The wrapper races the
task against a `setTimeout(ms)` deadline inside one promise, which
settles exactly once with the first event: the task's own settlement
(`promise.then(resolve).catch(reject)`) or the deadline rejection with a
`TIMEOUT`-classified `AppError`.  `taskTime` is the instant the task
settles; it wins the race exactly when it settles strictly before the
deadline fires. -/
def withTimeout (taskTime : Nat) (outcome : Except JsError α) (ms : Nat)
    (message : String) : Except JsError α :=
  if taskTime < ms then outcome
  else .error (mkAppError message (some "TIMEOUT") (some 408) (some true))

/-- Whether the deadline timer of `withTimeout` is cleared before it
fires: the `.finally(() => clearTimeout(timeoutId))` handler runs at the
task's settlement, so the timer is cancelled before firing exactly when
the task settles first. -/
def withTimeoutTimerCleared (taskTime ms : Nat) : Bool :=
  taskTime < ms

/-- Observable events of one `retry` run: an `onRetry(attempt, error)`
callback invocation, or an awaited `setTimeout` suspension of `ms`
milliseconds. -/
inductive RetryEv where
  | callback (attempt : Nat) (error : JsError)
  | wait (ms : Nat)
deriving DecidableEq, Repr

/-- The options object of `retry`.  `hasOnRetry` models whether the
optional `onRetry` callback was supplied. -/
structure RetryOptions where
  attempts : Option Nat := none
  delay : Option Nat := none
  backoff : Option Bool := none
  hasOnRetry : Bool := false

/-- `waitTime = backoff ? delay * Math.pow(2, attempt - 1) : delay`. -/
def waitTime (delay : Nat) (backoff : Bool) (attempt : Nat) : Nat :=
  if backoff then delay * 2 ^ (attempt - 1) else delay

/-- The loop `for (let attempt = 1; attempt <= attempts; attempt++)` of
`retry`, from attempt number `attempt` with `remaining` attempts still
allowed (including the current one).  `fn i` is the settlement of the
fresh task obtained by the `i`-th invocation of `fn`.  On success the
value is returned at once.  On failure with no attempt remaining the
loop ends and the source throws `lastError`, which at that point is the
error of the last attempted call (the initial `lastError` argument is
never read when at least one attempt runs).  On failure with attempts
remaining, the `onRetry` callback (if supplied) fires and then the loop
suspends for `waitTime` before the next attempt. -/
def retryFrom (fn : Nat → Except JsError α) (delay : Nat) (backoff hasOnRetry : Bool) :
    Nat → Nat → JsError → List RetryEv × Except JsError α
  | _, 0, lastError => ([], .error lastError)
  | attempt, remaining + 1, _ =>
    match fn attempt with
    | .ok v => ([], .ok v)
    | .error e =>
      if remaining = 0 then
        ([], .error e)
      else
        let evs := (if hasOnRetry then [RetryEv.callback attempt e] else [])
          ++ [RetryEv.wait (waitTime delay backoff attempt)]
        let rest := retryFrom fn delay backoff hasOnRetry (attempt + 1) remaining e
        (evs ++ rest.1, rest.2)

/-- `retry(fn, options)`: normalises the options exactly as the source
(`options.attempts || 3`, `options.delay || 1000`,
`options.backoff !== false`) and runs the attempt loop from attempt 1.
Returns the event log and the final settlement. -/
def retry (fn : Nat → Except JsError α) (options : RetryOptions) :
    List RetryEv × Except JsError α :=
  let attempts := jsOrNat options.attempts 3
  let delay := jsOrNat options.delay 1000
  let backoff := jsNeFalse options.backoff
  retryFrom fn delay backoff options.hasOnRetry 1 attempts (.plain "")

/-- The event log `retry` produces when attempts `a, a+1, ..., a+k-1` all
fail with errors `e a, ..., e (a+k-1)` and a further attempt follows:
for each failed attempt, the callback (when supplied) immediately
followed by the wait of `waitTime` for that attempt. -/
def retrySchedule (delay : Nat) (backoff hasOnRetry : Bool) (e : Nat → JsError) :
    Nat → Nat → List RetryEv
  | _, 0 => []
  | a, k + 1 =>
    (if hasOnRetry then [RetryEv.callback a (e a)] else [])
      ++ RetryEv.wait (waitTime delay backoff a) :: retrySchedule delay backoff hasOnRetry e (a + 1) k

/-- State of one `rateLimit` dispatcher instance.  `queue` and
`callsMade` mirror the source variables (queued calls are identified by
a caller-chosen tag); `inFlight` records admitted calls whose producer
invocation has not yet settled; `intervalSet` mirrors
`interval !== null`. -/
structure RLState where
  queue : List Nat
  callsMade : Nat
  inFlight : List Nat
  intervalSet : Bool
deriving DecidableEq, Repr

/-- One synchronous run of `processQueue` up to its first `await`: if the
queue is empty or `callsMade >= maxCalls` it returns; otherwise it
shifts the queue head, increments `callsMade` and invokes the producer
for that call (the call becomes in flight).  The remainder of
`processQueue` (routing the result and the chained drain) runs only when
that producer invocation settles. -/
def processQueueStep (maxCalls : Nat) (s : RLState) : RLState :=
  match s.queue with
  | [] => s
  | c :: rest =>
    if s.callsMade < maxCalls then
      { s with queue := rest, callsMade := s.callsMade + 1, inFlight := s.inFlight ++ [c] }
    else s

/-- `resetCalls` as run by the window timer, before its drain:
`callsMade = 0`. -/
def resetCalls (s : RLState) : RLState :=
  { s with callsMade := 0 }

/-- Events of a dispatcher run: `call c` is an invocation of the rate
limited entry point (push onto the queue, lazily start the interval
timer, then run `processQueue`); `settle c` is the settlement of the
producer invocation for the in-flight call `c` (its result is routed to
the caller, then `if (queue.length > 0) processQueue()` runs the chained
drain); `tick` is a firing of the recurring window timer (`resetCalls`
then its `processQueue` drain). -/
inductive RLEvent where
  | call (c : Nat)
  | settle (c : Nat)
  | tick
deriving DecidableEq, Repr

/-- Small-step transition of one dispatcher instance. -/
def rlStep (maxCalls : Nat) (s : RLState) : RLEvent → RLState
  | .call c =>
    processQueueStep maxCalls { s with queue := s.queue ++ [c], intervalSet := true }
  | .settle c =>
    if c ∈ s.inFlight then
      let s' := { s with inFlight := s.inFlight.erase c }
      if s'.queue.isEmpty then s' else processQueueStep maxCalls s'
    else s
  | .tick => processQueueStep maxCalls (resetCalls s)

/-- Initial dispatcher state: empty queue, zero counter, no timer. -/
def rlInit : RLState :=
  { queue := [], callsMade := 0, inFlight := [], intervalSet := false }

/-- Run a dispatcher from the initial state through a sequence of
events. -/
def rlRun (maxCalls : Nat) (events : List RLEvent) : RLState :=
  events.foldl (rlStep maxCalls) rlInit

/-- Observable events of one `batch` run: a `processor(item)` invocation,
or the awaited `setTimeout(delay)` suspension between groups. -/
inductive BatchEv (τ : Type) where
  | call (item : τ)
  | wait (ms : Nat)
deriving DecidableEq, Repr

/-- The options object of `batch`.  `concurrency` is accepted by the
source (`options.concurrency || size`) but never used to throttle a
group. -/
structure BatchOptions where
  size : Option Nat := none
  delay : Option Nat := none
  concurrency : Option Nat := none

/-- The grouping loop of `batch`:
`for (let i = 0; i < items.length; i += size) items.slice(i, i + size)`.
Structural recursion on a fuel bounded by the list length; each
iteration consumes at least one element (the normalised `size` is always
at least 1), so the fuel `items.length` is never exhausted. -/
def chunksGo (size : Nat) : Nat → List τ → List (List τ)
  | _, [] => []
  | 0, _ :: _ => []
  | fuel + 1, x :: xs => (x :: xs.take (size - 1)) :: chunksGo size fuel (xs.drop (size - 1))

/-- The contiguous groups `items.slice(0, size), items.slice(size, 2 *
size), ...` that the `batch` loop iterates over. -/
def chunks (size : Nat) (items : List τ) : List (List τ) :=
  chunksGo size items.length items

/-- `await Promise.all(batch.map(item => processor(item)))` for one
group: every processor settles, the results are collected in input
order, and a rejection of any item rejects the whole group with that
item's error (the first failing item in order settles the `Promise.all`
rejection). -/
def runGroup (processor : τ → Except JsError ρ) : List τ → Except JsError (List ρ)
  | [] => .ok []
  | x :: xs =>
    match processor x with
    | .error e => .error e
    | .ok r =>
      match runGroup processor xs with
      | .error e => .error e
      | .ok rs => .ok (r :: rs)

/-- The group loop of `batch` over the list of groups: run each group
with `Promise.all` (invoking the processor on every item of the group),
push its results, and suspend for `delay` between groups when `delay >
0` and more items remain (`i + size < items.length`, i.e. further groups
follow).  A group failure rejects the whole run at once: no delay, no
later group. -/
def batchRun (processor : τ → Except JsError ρ) (delay : Nat) :
    List (List τ) → List (BatchEv τ) × Except JsError (List ρ)
  | [] => ([], .ok [])
  | g :: gs =>
    let callEvs := g.map BatchEv.call
    match runGroup processor g with
    | .error e => (callEvs, .error e)
    | .ok rs =>
      let delayEvs := if 0 < delay && !gs.isEmpty then [BatchEv.wait delay] else []
      let rest := batchRun processor delay gs
      (callEvs ++ delayEvs ++ rest.1, rest.2.map (fun tail => rs ++ tail))

/-- `batch(items, processor, options)`: normalises the options exactly
as the source (`options.size || 10`, `options.delay || 0`) and runs the
group loop.  Returns the event log and the final settlement. -/
def batch (items : List τ) (processor : τ → Except JsError ρ) (options : BatchOptions) :
    List (BatchEv τ) × Except JsError (List ρ) :=
  let size := jsOrNat options.size 10
  let delay := jsOrNat options.delay 0
  batchRun processor delay (chunks size items)

lemma processQueueStep_le (maxCalls : Nat) (s : RLState) (h : s.callsMade ≤ maxCalls) :
    (processQueueStep maxCalls s).callsMade ≤ maxCalls := by
  unfold processQueueStep
  split
  · exact h
  · split
    next hc => exact hc
    next => exact h

lemma rlStep_le (maxCalls : Nat) (s : RLState) (e : RLEvent) (h : s.callsMade ≤ maxCalls) :
    (rlStep maxCalls s e).callsMade ≤ maxCalls := by
  cases e with
  | call c => exact processQueueStep_le maxCalls _ h
  | settle c =>
    simp only [rlStep]
    split
    · split
      · exact h
      · exact processQueueStep_le maxCalls _ h
    · exact h
  | tick => exact processQueueStep_le maxCalls _ (Nat.zero_le _)

lemma rlRun_go_le (maxCalls : Nat) :
    ∀ (events : List RLEvent) (s : RLState), s.callsMade ≤ maxCalls →
      (events.foldl (rlStep maxCalls) s).callsMade ≤ maxCalls := by
  intro events
  induction events with
  | nil => intro s h; exact h
  | cons e rest ih => intro s h; exact ih _ (rlStep_le maxCalls s e h)

/-- C8: for every dispatcher instance and every sequence of calls,
producer settlements and window ticks, the `callsMade` counter never
exceeds `maxCalls`, and the window timer's `resetCalls` sets the counter
to exactly 0. -/
theorem rateLimit_window_invariant (maxCalls : Nat) (events : List RLEvent) :
    (rlRun maxCalls events).callsMade ≤ maxCalls
    ∧ ∀ s : RLState, (resetCalls s).callsMade = 0 :=
  ⟨rlRun_go_le maxCalls events rlInit (Nat.zero_le _), fun _ => rfl⟩

/-- C3, counterexample: with `maxCalls = 2`, four dispatcher calls
followed by a window tick leave call 4 queued while only one admission
(`callsMade = 1 < 2`) was made in the fresh window, because the
post-reset drain admitted call 3 and is awaiting its producer
invocation; call 4 is admitted only once call 3 settles.  So admission
of a queued call is delayed by an earlier admitted call that is still in
flight, refuting the claim. -/
theorem rateLimit_sequential_drain_cex :
    (rlRun 2 [.call 1, .call 2, .call 3, .call 4, .tick]).queue = [4]
    ∧ (rlRun 2 [.call 1, .call 2, .call 3, .call 4, .tick]).callsMade < 2
    ∧ (rlRun 2 [.call 1, .call 2, .call 3, .call 4, .tick]).inFlight = [1, 2, 3]
    ∧ (rlStep 2 (rlRun 2 [.call 1, .call 2, .call 3, .call 4, .tick]) (.settle 3)).inFlight
        = [1, 2, 4] := by
  decide

/-- C3, amended: an admission triggered by a new dispatcher call is
immediate whenever the queue is empty and window capacity remains,
regardless of how many earlier admitted calls are still in flight — so
up to `maxCalls` producer invocations can be outstanding concurrently in
one window.  (Drains chained from a settlement or from the window tick,
by contrast, admit one call at a time, as the counterexample shows.) -/
theorem rateLimit_call_admission_immediate (maxCalls : Nat) (s : RLState) (c : Nat)
    (hq : s.queue = []) (hc : s.callsMade < maxCalls) :
    (rlStep maxCalls s (.call c)).inFlight = s.inFlight ++ [c]
    ∧ (rlStep maxCalls s (.call c)).callsMade = s.callsMade + 1
    ∧ (rlStep maxCalls s (.call c)).queue = [] := by
  unfold rlStep processQueueStep
  simp [hq, hc]

/-- Witness for the amended C3 theorem: after one call is admitted and
still in flight, a second call is admitted immediately. -/
theorem rateLimit_call_admission_immediate_witness :
    ((rlRun 2 [.call 1]).queue = [] ∧ (rlRun 2 [.call 1]).callsMade < 2)
    ∧ ((rlStep 2 (rlRun 2 [.call 1]) (.call 2)).inFlight = (rlRun 2 [.call 1]).inFlight ++ [2]
      ∧ (rlStep 2 (rlRun 2 [.call 1]) (.call 2)).callsMade = (rlRun 2 [.call 1]).callsMade + 1
      ∧ (rlStep 2 (rlRun 2 [.call 1]) (.call 2)).queue = []) :=
  ⟨⟨by decide, by decide⟩,
    rateLimit_call_admission_immediate 2 (rlRun 2 [.call 1]) 2 (by decide) (by decide)⟩

/-- C9: whenever the task settles strictly before the deadline,
`withTimeout` returns exactly the task's own outcome (success or
failure alike, no synthetic `TIMEOUT` failure) and the deadline timer is
cleared before it can fire. -/
theorem withTimeout_passthrough (taskTime ms : Nat) (outcome : Except JsError α)
    (message : String) (h : taskTime < ms) :
    withTimeout taskTime outcome ms message = outcome
    ∧ withTimeoutTimerCleared taskTime ms = true := by
  constructor
  · unfold withTimeout
    simp [h]
  · unfold withTimeoutTimerCleared
    simp [h]

/-- Witness for C9: a task settling at 50 ms under a 100 ms deadline
keeps its own outcome. -/
theorem withTimeout_passthrough_witness :
    50 < 100
    ∧ (withTimeout 50 (Except.ok (7 : Nat)) 100 "Operation timed out" = Except.ok 7
      ∧ withTimeoutTimerCleared 50 100 = true) :=
  ⟨by decide, withTimeout_passthrough 50 100 (Except.ok 7) "Operation timed out" (by decide)⟩

/-- C1, counterexample: with cancellation requested before settlement is
observed, an underlying task that fails keeps its own error — the
returned task does not settle with a `CANCELLED`-classified failure, so
the claim's "regardless of the underlying task's real outcome (whether
it succeeds or fails)" is false for the failure case. -/
theorem withCancel_failure_unmasked_cex :
    withCancelSettle true (Except.error (JsError.plain "boom") : Except JsError Nat)
        = Except.error (JsError.plain "boom")
    ∧ isCancelledFailure
        (withCancelSettle true (Except.error (JsError.plain "boom") : Except JsError Nat))
      = false :=
  ⟨rfl, rfl⟩

/-- C1, amended: if `cancel()` is invoked before the underlying task's
settlement is observed and the task succeeds, the returned task fails
with a `CANCELLED`-classified `AppError`; an underlying failure
propagates unchanged whether or not cancellation was requested; and
without cancellation a success passes through. -/
theorem withCancel_settlement (isCancelled : Bool) (v : α) (e : JsError) :
    withCancelSettle true (Except.ok v)
        = Except.error (mkAppError "Operation cancelled" (some "CANCELLED") none none)
    ∧ isCancelledFailure (withCancelSettle true (Except.ok v)) = true
    ∧ withCancelSettle isCancelled (Except.error e : Except JsError α) = Except.error e
    ∧ withCancelSettle false (Except.ok v) = Except.ok v :=
  ⟨rfl, rfl, rfl, rfl⟩

/-- C2, counterexample: `retry` called with `delay = 0` and backoff
disabled does not wait 0 ms between attempts — the normalisation
`options.delay || 1000` treats the supplied 0 as absent, so the run
waits 1000 ms. -/
theorem retry_zero_delay_cex :
    (retry (fun _ => (Except.error (JsError.plain "E") : Except JsError Nat))
        { attempts := some 2, delay := some 0, backoff := some false }).1
      = [RetryEv.wait 1000]
    ∧ (1000 : Nat) ≠ 0 := by
  decide

/-- C2, amended: `retry` uses the caller-supplied `delay` in the
wait-time computation whenever it is at least 1; a supplied 0 (like an
unsupplied value) falls back to the default 1000.  With backoff disabled
and a positive `delay := d`, a failing two-attempt run waits exactly
`d` ms. -/
theorem retry_positive_delay_used (d : Nat) (hd : d ≠ 0) (e : JsError) :
    (retry (fun _ => (Except.error e : Except JsError Nat))
        { attempts := some 2, delay := some d, backoff := some false }).1
      = [RetryEv.wait d] := by
  show [RetryEv.wait (waitTime (jsOrNat (some d) 1000) false 1)] = [RetryEv.wait d]
  simp [jsOrNat, waitTime, hd]

/-- Witness for the amended C2 theorem at `delay = 7`. -/
theorem retry_positive_delay_used_witness :
    (7 : Nat) ≠ 0
    ∧ (retry (fun _ => (Except.error (JsError.plain "E") : Except JsError Nat))
        { attempts := some 2, delay := some 7, backoff := some false }).1
      = [RetryEv.wait 7] :=
  ⟨by decide, retry_positive_delay_used 7 (by decide) (JsError.plain "E")⟩

/-- C10: `batch` on an empty input list returns an empty result list
with an empty event log — the processor is never invoked and no
inter-group delay occurs — for every processor and every options
object. -/
theorem batch_empty (processor : τ → Except JsError ρ) (options : BatchOptions) :
    batch ([] : List τ) processor options = ([], Except.ok []) :=
  rfl

lemma jsOrNat_ne_zero (x : Option Nat) (d : Nat) (hd : d ≠ 0) : jsOrNat x d ≠ 0 := by
  cases x with
  | none => exact hd
  | some n =>
    by_cases hn : n = 0
    · simp [jsOrNat, hn]; exact hd
    · simp [jsOrNat, hn]

lemma retryFrom_succ_after_fails (fn : Nat → Except JsError α) (delay : Nat) (backoff : Bool)
    (e : Nat → JsError) (v : α) :
    ∀ (k a r : Nat) (last : JsError), k < r →
      (∀ i, a ≤ i → i < a + k → fn i = .error (e i)) →
      fn (a + k) = .ok v →
      retryFrom fn delay backoff true a r last
        = (retrySchedule delay backoff true e a k, .ok v) := by
  intro k
  induction k with
  | zero =>
    intro a r last hr hfail hsucc
    obtain ⟨r', rfl⟩ : ∃ r', r = r' + 1 := ⟨r - 1, by omega⟩
    rw [show a + 0 = a from rfl] at hsucc
    simp [retryFrom, hsucc, retrySchedule]
  | succ k ih =>
    intro a r last hr hfail hsucc
    obtain ⟨r', rfl⟩ : ∃ r', r = r' + 1 := ⟨r - 1, by omega⟩
    have hfa : fn a = .error (e a) := hfail a (le_refl a) (by omega)
    have hr' : r' ≠ 0 := by omega
    have hrec := ih (a + 1) r' (e a) (by omega)
      (fun i h1 h2 => hfail i (by omega) (by omega))
      (by rw [show a + 1 + k = a + (k + 1) from by omega]; exact hsucc)
    simp [retryFrom, hfa, hr', hrec, retrySchedule]

lemma retryFrom_succ (fn : Nat → Except JsError α) (delay : Nat) (b cb : Bool)
    (a r : Nat) (last : JsError) :
    retryFrom fn delay b cb a (r + 1) last
      = match fn a with
        | .ok v => ([], .ok v)
        | .error e =>
          if r = 0 then ([], .error e)
          else
            (((if cb then [RetryEv.callback a e] else [])
                ++ [RetryEv.wait (waitTime delay b a)])
               ++ (retryFrom fn delay b cb (a + 1) r e).1,
             (retryFrom fn delay b cb (a + 1) r e).2) := rfl

lemma retryFrom_all_fail (fn : Nat → Except JsError α) (delay : Nat) (backoff cb : Bool)
    (e : Nat → JsError) :
    ∀ (r a : Nat) (last : JsError), r ≠ 0 →
      (∀ i, a ≤ i → i < a + r → fn i = .error (e i)) →
      retryFrom fn delay backoff cb a r last
        = (retrySchedule delay backoff cb e a (r - 1), .error (e (a + r - 1))) := by
  intro r
  induction r with
  | zero => intro a last h; exact absurd rfl h
  | succ r ih =>
    intro a last _ hfail
    have hfa : fn a = .error (e a) := hfail a (le_refl a) (by omega)
    by_cases hr : r = 0
    · subst hr
      simp [retryFrom, hfa, retrySchedule]
    · have hrec := ih (a + 1) (e a) hr (fun i h1 h2 => hfail i (by omega) (by omega))
      obtain ⟨r'', rfl⟩ : ∃ r'', r = r'' + 1 := ⟨r - 1, by omega⟩
      rw [retryFrom_succ, hfa]
      dsimp only
      rw [if_neg hr, hrec]
      rw [show a + 1 + (r'' + 1) - 1 = a + (r'' + 1 + 1) - 1 from by omega]
      simp [retrySchedule]

/-- C4: whenever the first `k` attempts of `retry` fail (with `k` below
the attempt budget, a positive supplied delay and the `onRetry` callback
supplied) and attempt `k + 1` succeeds, the run settles with the success
value and its event log is exactly, for each failed attempt `i`, the
callback `onRetry(i, error_i)` immediately followed by a suspension of
`waitTime = delay * 2 ^ (i - 1)` when backoff is enabled and `delay`
otherwise — the callback fires before the wait, once per failed
non-final attempt. -/
theorem retry_callback_before_wait (fn : Nat → Except JsError α) (e : Nat → JsError) (v : α)
    (attempts delay k : Nat) (backoff : Bool)
    (ha : attempts ≠ 0) (hd : delay ≠ 0) (hk : k < attempts)
    (hfail : ∀ i, 1 ≤ i → i ≤ k → fn i = .error (e i))
    (hsucc : fn (k + 1) = .ok v) :
    retry fn { attempts := some attempts, delay := some delay, backoff := some backoff,
               hasOnRetry := true }
      = (retrySchedule delay backoff true e 1 k, Except.ok v) := by
  have h2 : jsOrNat (some delay) 1000 = delay := by simp [jsOrNat, hd]
  have h1 : jsOrNat (some attempts) 3 = attempts := by simp [jsOrNat, ha]
  have h3 : jsNeFalse (some backoff) = backoff := by cases backoff <;> rfl
  show retryFrom fn (jsOrNat (some delay) 1000) (jsNeFalse (some backoff)) true 1
      (jsOrNat (some attempts) 3) (.plain "") = _
  rw [h1, h2, h3]
  exact retryFrom_succ_after_fails fn delay backoff e v k 1 attempts (.plain "") hk
    (fun i hi1 hi2 => hfail i hi1 (by omega))
    (by rw [Nat.add_comm]; exact hsucc)

/-- Witness for C4: `attempts = 3`, `delay = 100`, backoff enabled, a
task failing on attempts 1 and 2 and succeeding on attempt 3 logs
exactly callback 1, wait 100 ms, callback 2, wait 200 ms, and returns
the success value. -/
theorem retry_callback_before_wait_witness :
    retry (fun i => if i = 1 then Except.error (JsError.plain "e1")
        else if i = 2 then Except.error (JsError.plain "e2") else Except.ok (42 : Nat))
        { attempts := some 3, delay := some 100, backoff := some true, hasOnRetry := true }
      = ([RetryEv.callback 1 (JsError.plain "e1"), RetryEv.wait 100,
          RetryEv.callback 2 (JsError.plain "e2"), RetryEv.wait 200], Except.ok 42) := by
  have h := retry_callback_before_wait
    (fun i => if i = 1 then Except.error (JsError.plain "e1")
        else if i = 2 then Except.error (JsError.plain "e2") else Except.ok (42 : Nat))
    (fun i => if i = 1 then JsError.plain "e1" else JsError.plain "e2") 42 3 100 2 true
    (by decide) (by decide) (by decide)
    (fun i h1 h2 => by interval_cases i <;> rfl) rfl
  simpa [retrySchedule, waitTime] using h

/-- C5: when every attempt of `retry` fails, the surfaced error is
exactly the error of the last attempted call (attempt number
`attempts`), and the event log consists of one callback/wait pair for
each of the `attempts - 1` non-final failures only — no delay and no
`onRetry` invocation follows the final attempt's failure.  Stated for
every options object, with the source's normalisations spelled out. -/
theorem retry_last_error (fn : Nat → Except JsError α) (e : Nat → JsError)
    (options : RetryOptions)
    (hfail : ∀ i, fn i = .error (e i)) :
    retry fn options
      = (retrySchedule (jsOrNat options.delay 1000) (jsNeFalse options.backoff)
          options.hasOnRetry e 1 (jsOrNat options.attempts 3 - 1),
         Except.error (e (jsOrNat options.attempts 3))) := by
  have hA : jsOrNat options.attempts 3 ≠ 0 := jsOrNat_ne_zero _ 3 (by decide)
  show retryFrom fn (jsOrNat options.delay 1000) (jsNeFalse options.backoff)
      options.hasOnRetry 1 (jsOrNat options.attempts 3) (.plain "") = _
  rw [retryFrom_all_fail fn (jsOrNat options.delay 1000) (jsNeFalse options.backoff)
    options.hasOnRetry e (jsOrNat options.attempts 3) 1 (.plain "") hA
    (fun i _ _ => hfail i)]
  rw [show 1 + jsOrNat options.attempts 3 - 1 = jsOrNat options.attempts 3 from by omega]

/-- Witness for C5: `attempts = 2` with a task always failing with `E`
surfaces `E`, with `onRetry` called exactly once (after attempt 1) and
no trailing delay or callback after attempt 2. -/
theorem retry_last_error_witness :
    retry (fun _ => (Except.error (JsError.plain "E") : Except JsError Nat))
        { attempts := some 2, delay := some 100, backoff := some false, hasOnRetry := true }
      = ([RetryEv.callback 1 (JsError.plain "E"), RetryEv.wait 100],
         Except.error (JsError.plain "E")) := by
  have h := retry_last_error (fun _ => (Except.error (JsError.plain "E") : Except JsError Nat))
    (fun _ => JsError.plain "E")
    { attempts := some 2, delay := some 100, backoff := some false, hasOnRetry := true }
    (fun _ => rfl)
  simpa [retrySchedule, waitTime, jsOrNat, jsNeFalse] using h

/-- Whether a settlement is a success. -/
def isOk : Except JsError α → Bool
  | .ok _ => true
  | .error _ => false

lemma isOk_exists (o : Except JsError ρ) (h : isOk o = true) : ∃ r, o = .ok r := by
  cases o with
  | ok r => exact ⟨r, rfl⟩
  | error e => simp [isOk] at h

lemma chunksGo_flatten (size : Nat) :
    ∀ (fuel : Nat) (l : List τ), l.length ≤ fuel → (chunksGo size fuel l).flatten = l := by
  intro fuel
  induction fuel with
  | zero =>
    intro l hl
    rw [List.length_eq_zero.mp (Nat.le_zero.mp hl)]
    rfl
  | succ fuel ih =>
    intro l hl
    cases l with
    | nil => rfl
    | cons x xs =>
      have hdrop : (xs.drop (size - 1)).length ≤ fuel := by
        rw [List.length_drop]
        simp at hl
        omega
      simp only [chunksGo, List.flatten_cons]
      rw [ih _ hdrop, List.cons_append, List.take_append_drop]

lemma chunks_flatten (size : Nat) (items : List τ) : (chunks size items).flatten = items :=
  chunksGo_flatten size items.length items (le_refl _)

lemma chunksGo_mem (size : Nat) (hs : size ≠ 0) :
    ∀ (fuel : Nat) (l : List τ) (g : List τ), g ∈ chunksGo size fuel l →
      g ≠ [] ∧ g.length ≤ size := by
  intro fuel
  induction fuel with
  | zero =>
    intro l g hg
    cases l with
    | nil => simp [chunksGo] at hg
    | cons x xs => simp [chunksGo] at hg
  | succ fuel ih =>
    intro l g hg
    cases l with
    | nil => simp [chunksGo] at hg
    | cons x xs =>
      simp only [chunksGo, List.mem_cons] at hg
      cases hg with
      | inl h =>
        subst h
        refine ⟨by simp, ?_⟩
        simp only [List.length_cons]
        have := List.length_take_le (size - 1) xs
        omega
      | inr h => exact ih _ g h

lemma chunks_mem (size : Nat) (items : List τ) (hs : size ≠ 0) :
    ∀ g ∈ chunks size items, g ≠ [] ∧ g.length ≤ size :=
  fun g hg => chunksGo_mem size hs items.length items g hg

lemma runGroup_map_ok (processor : τ → Except JsError ρ) (f : τ → ρ) :
    ∀ g : List τ, (∀ x ∈ g, processor x = .ok (f x)) →
      runGroup processor g = .ok (g.map f) := by
  intro g
  induction g with
  | nil => intro _; rfl
  | cons x xs ih =>
    intro h
    simp only [runGroup, h x (by simp), ih (fun y hy => h y (by simp [hy]))]
    rfl

lemma batchRun_cons (processor : τ → Except JsError ρ) (delay : Nat)
    (g : List τ) (gs : List (List τ)) :
    batchRun processor delay (g :: gs)
      = match runGroup processor g with
        | .error e => (g.map BatchEv.call, .error e)
        | .ok rs =>
          (g.map BatchEv.call
             ++ (if 0 < delay && !gs.isEmpty then [BatchEv.wait delay] else [])
             ++ (batchRun processor delay gs).1,
           (batchRun processor delay gs).2.map (fun tail => rs ++ tail)) := rfl

lemma batchRun_all_ok (processor : τ → Except JsError ρ) (f : τ → ρ) (delay : Nat) :
    ∀ gl : List (List τ), (∀ g ∈ gl, ∀ x ∈ g, processor x = .ok (f x)) →
      (batchRun processor delay gl).2 = .ok (gl.flatten.map f) := by
  intro gl
  induction gl with
  | nil => intro _; rfl
  | cons g gs ih =>
    intro h
    rw [batchRun_cons, runGroup_map_ok processor f g (h g (by simp))]
    dsimp only
    rw [ih (fun g' hg' x hx => h g' (by simp [hg']) x hx)]
    simp [Except.map]

lemma runGroup_first_error (processor : τ → Except JsError ρ) (x : τ) (e : JsError)
    (hx : processor x = .error e) :
    ∀ (p : List τ) (q : List τ), (∀ y ∈ p, isOk (processor y) = true) →
      runGroup processor (p ++ x :: q) = .error e := by
  intro p
  induction p with
  | nil =>
    intro q _
    simp only [List.nil_append, runGroup, hx]
  | cons y p ih =>
    intro q hok
    obtain ⟨r, hr⟩ := isOk_exists (processor y) (hok y (by simp))
    rw [List.cons_append]
    simp only [runGroup, hr, List.append_eq]
    rw [ih q (fun z hz => hok z (by simp [hz]))]

lemma runGroup_ok_of_isOk (processor : τ → Except JsError ρ) :
    ∀ g : List τ, (∀ y ∈ g, isOk (processor y) = true) →
      ∃ rs, runGroup processor g = .ok rs := by
  intro g
  induction g with
  | nil => intro _; exact ⟨[], rfl⟩
  | cons y ys ih =>
    intro h
    obtain ⟨r, hr⟩ := isOk_exists (processor y) (h y (by simp))
    obtain ⟨rs, hrs⟩ := ih (fun z hz => h z (by simp [hz]))
    exact ⟨r :: rs, by simp only [runGroup, hr, hrs]⟩

lemma batchRun_fail (processor : τ → Except JsError ρ) (delay : Nat) (e : JsError) :
    ∀ (gsOk : List (List τ)) (gBad : List τ) (rest : List (List τ)),
      (∀ g ∈ gsOk, ∀ y ∈ g, isOk (processor y) = true) →
      runGroup processor gBad = .error e →
      batchRun processor delay (gsOk ++ gBad :: rest)
        = (gsOk.flatMap (fun g => g.map BatchEv.call
            ++ if 0 < delay then [BatchEv.wait delay] else []) ++ gBad.map BatchEv.call,
           .error e) := by
  intro gsOk
  induction gsOk with
  | nil =>
    intro gBad rest _ hbad
    rw [List.nil_append, batchRun_cons, hbad]
    simp
  | cons g gsOk ih =>
    intro gBad rest hok hbad
    obtain ⟨rs, hrs⟩ := runGroup_ok_of_isOk processor g (hok g (by simp))
    rw [List.cons_append, batchRun_cons, hrs]
    dsimp only
    rw [ih gBad rest (fun g' hg' y hy => hok g' (by simp [hg']) y hy) hbad]
    simp [List.flatMap_cons, Except.map]

/-- C6: for every input list and every group size at least 1, the groups
`batch` iterates over are a contiguous partition of the items (their
concatenation restores the input, every group is non-empty and no
group exceeds `size`), the groups are processed strictly sequentially by
the group loop, and with a processor succeeding on every item the run
settles with one result per input item assembled in the original input
order. -/
theorem batch_partition_order (items : List τ) (f : τ → ρ) (size delay : Nat)
    (hs : size ≠ 0) :
    (chunks size items).flatten = items
    ∧ (∀ g ∈ chunks size items, g ≠ [] ∧ g.length ≤ size)
    ∧ (batch items (fun x => Except.ok (f x)) { size := some size, delay := some delay }).2
        = Except.ok (items.map f) := by
  refine ⟨chunks_flatten size items, chunks_mem size items hs, ?_⟩
  have hS : jsOrNat (some size) 10 = size := by simp [jsOrNat, hs]
  show (batchRun (fun x => Except.ok (f x)) (jsOrNat (some delay) 0)
      (chunks (jsOrNat (some size) 10) items)).2 = _
  rw [hS, batchRun_all_ok (fun x => Except.ok (f x)) f _ (chunks size items)
    (fun _ _ x _ => rfl), chunks_flatten]

/-- Witness for C6: `items = [1..7]`, `groupSize = 3` and a doubling
processor yield `[2, 4, 6, 8, 10, 12, 14]` in that order, via groups of
sizes 3, 3, 1. -/
theorem batch_partition_order_witness :
    ((3 : Nat) ≠ 0 ∧ (chunks 3 [(1 : Nat), 2, 3, 4, 5, 6, 7]).map List.length = [3, 3, 1])
    ∧ ((chunks 3 [(1 : Nat), 2, 3, 4, 5, 6, 7]).flatten = [1, 2, 3, 4, 5, 6, 7]
      ∧ (∀ g ∈ chunks 3 [(1 : Nat), 2, 3, 4, 5, 6, 7], g ≠ [] ∧ g.length ≤ 3)
      ∧ (batch [(1 : Nat), 2, 3, 4, 5, 6, 7] (fun x => Except.ok (x * 2))
          { size := some 3, delay := some 0 }).2 = Except.ok [2, 4, 6, 8, 10, 12, 14]) := by
  refine ⟨⟨by decide, by decide⟩, ?_⟩
  obtain ⟨h1, h2, h3⟩ :=
    batch_partition_order [(1 : Nat), 2, 3, 4, 5, 6, 7] (fun x => x * 2) 3 0 (by decide)
  exact ⟨h1, h2, by simpa using h3⟩

/-- C7: if the processor fails on item `x` of some group — all groups
before it succeeding on every item and all items before `x` in its own
group succeeding — then the whole `batch` run settles with exactly `x`'s
error (no partial result list), every item of `x`'s group is still
invoked (`Promise.all` starts the whole group), and the event log ends
with that group: no processor invocation and no delay for any later
group. -/
theorem batch_fail_fast (items : List τ) (processor : τ → Except JsError ρ)
    (size delay : Nat) (hs : size ≠ 0)
    (gsOk : List (List τ)) (p : List τ) (x : τ) (q : List τ) (rest : List (List τ))
    (e : JsError)
    (hchunks : chunks size items = gsOk ++ (p ++ x :: q) :: rest)
    (hok : ∀ g ∈ gsOk, ∀ y ∈ g, isOk (processor y) = true)
    (hpok : ∀ y ∈ p, isOk (processor y) = true)
    (hx : processor x = .error e) :
    batch items processor { size := some size, delay := some delay }
      = (gsOk.flatMap (fun g => g.map BatchEv.call
          ++ if 0 < delay then [BatchEv.wait delay] else [])
          ++ (p ++ x :: q).map BatchEv.call,
         Except.error e) := by
  have hS : jsOrNat (some size) 10 = size := by simp [jsOrNat, hs]
  have hD : jsOrNat (some delay) 0 = delay := by
    by_cases h : delay = 0 <;> simp [jsOrNat, h]
  show batchRun processor (jsOrNat (some delay) 0)
      (chunks (jsOrNat (some size) 10) items) = _
  rw [hS, hD, hchunks]
  exact batchRun_fail processor delay e gsOk (p ++ x :: q) rest hok
    (runGroup_first_error processor x e hx p q hpok)

/-- Witness for C7: items `[1..5]` with `groupSize = 2` and a processor
failing on item 3 invoke the processor on items 1, 2, 3, 4 only and
settle with item 3's error — group `[5]` is never processed and no
result list is produced. -/
theorem batch_fail_fast_witness :
    ((2 : Nat) ≠ 0
      ∧ chunks 2 [(1 : Nat), 2, 3, 4, 5] = [[1, 2]] ++ ([] ++ 3 :: [4]) :: [[5]])
    ∧ batch [(1 : Nat), 2, 3, 4, 5]
        (fun n => if n = 3 then Except.error (JsError.plain "bad3") else Except.ok (n * 2))
        { size := some 2, delay := some 0 }
      = ([BatchEv.call 1, BatchEv.call 2, BatchEv.call 3, BatchEv.call 4],
         Except.error (JsError.plain "bad3")) := by
  refine ⟨⟨by decide, by decide⟩, ?_⟩
  have h := batch_fail_fast [(1 : Nat), 2, 3, 4, 5]
    (fun n => if n = 3 then Except.error (JsError.plain "bad3") else Except.ok (n * 2))
    2 0 (by decide) [[1, 2]] [] 3 [4] [[5]] (JsError.plain "bad3")
    (by decide) (by decide) (by decide) rfl
  simpa using h

end Trycatcher
